import Mathlib

/-!
Shallow embedding of the payment-analytics pipeline
(`src/srs/validation.py`, `src/srs/data_loading.py`, `src/srs/main.py`).

A pandas `DataFrame` is modelled as a list of columns (each carrying its
name and whether its declared element dtype is numeric) together with a
list of rows; a cell is `Option Val`, `none` standing for a missing
(NaN/null) entry.  Python exceptions are modelled by `Except PyErr`.
Logging calls are observational only and are not modelled.
-/

deriving instance DecidableEq for Except

namespace PaymentAnalytics

/-- A cell value: pandas numeric scalars are modelled as rationals,
everything else as strings. -/
inductive Val where
  | num (q : ℚ)
  | str (s : String)
deriving DecidableEq, Repr

abbrev Cell := Option Val

abbrev Row := List Cell

/-- A column of a DataFrame: its name and whether its declared dtype is
numeric (`select_dtypes(include='number')` selects it). -/
structure Col where
  name : String
  numeric : Bool
deriving DecidableEq, Repr

/-- A pandas DataFrame: column declarations plus rows of cells. -/
structure DFrame where
  cols : List Col
  rows : List Row
deriving DecidableEq, Repr

/-- Cell of a row at position `j` (missing once past the end). -/
def getCell (r : Row) (j : Nat) : Cell := r[j]?.getD none

/-- Index of the first column with the given name. -/
def colIdxA : List Col → String → Option Nat
  | [], _ => none
  | c :: cs, nm => if c.name = nm then some 0 else (colIdxA cs nm).map (· + 1)

/-- Index of the column named `nm` in `df`, as pandas column lookup. -/
def DFrame.colIdx (df : DFrame) (nm : String) : Option Nat := colIdxA df.cols nm

def DFrame.colNames (df : DFrame) : List String := df.cols.map Col.name

/-- `df.empty` in pandas: no rows or no columns. -/
def DFrame.empty (df : DFrame) : Bool := df.rows.isEmpty || df.cols.isEmpty

/-- `df.isnull().values.any()`: some cell is missing. -/
def DFrame.hasNull (df : DFrame) : Bool :=
  df.rows.any (fun r => r.any (fun c => c.isNone))

/-- Rectangularity: every row has exactly one cell per column (pandas
DataFrames are rectangular by construction). -/
def DFrame.wf (df : DFrame) : Bool :=
  df.rows.all (fun r => r.length = df.cols.length)

/-- Cell of `df` at row `i`, column position `j` (`none` if row `i` does
not exist). -/
def tableCell (df : DFrame) (i j : Nat) : Option Cell :=
  df.rows[i]?.map (fun r => getCell r j)

/-- Python exceptions raised by the pipeline.  `aggregationError` is the
wrapped error class the specification describes for the aggregation
engine; the source never constructs it. -/
inductive PyErr where
  | emptySheet (sheet : String)
  | missingColumns (sheet : String) (cols : List String)
  | keyError (key : String)
  | aggregationError (msg : String)
deriving DecidableEq, Repr

def PyErr.isAggregation : PyErr → Bool
  | .aggregationError _ => true
  | _ => false

/-- `validate_data` from `src/srs/validation.py`: raises on an empty
frame, then on missing required columns (when a required set is given).
The missing-value warning is a log side effect and is not modelled. -/
def validate_data (df : DFrame) (sheet_name : String)
    (required_columns : List String) : Except PyErr Unit :=
  if df.empty then .error (.emptySheet sheet_name)
  else if required_columns.isEmpty then .ok ()
  else
    let missing := required_columns.filter (fun c => decide (c ∉ df.colNames))
    if missing.isEmpty then .ok ()
    else .error (.missingColumns sheet_name missing)

/-- One cleaning pass of `fillna` over a row: cells of columns selected
by `p` that are missing become `v`. -/
def fillRow (cols : List Col) (p : Col → Bool) (v : Val) (r : Row) : Row :=
  List.zipWith (fun c cell => if p c && cell.isNone then some v else cell) cols r

/-- `df[sel] = df[sel].fillna(v)` where `sel` selects columns by `p`. -/
def fillna (df : DFrame) (p : Col → Bool) (v : Val) : DFrame :=
  { df with rows := df.rows.map (fillRow df.cols p v) }

/-- Fill the missing cell at position `i` of a row with `v`. -/
def fillAtRow (i : Nat) (v : Val) (r : Row) : Row :=
  match i, r with
  | _, [] => []
  | 0, c :: cs => (if c.isNone then some v else c) :: cs
  | Nat.succ n, c :: cs => c :: fillAtRow n v cs

/-- `df[nm] = df[nm].fillna(v)`: fill the missing cells of the column
named `nm`. -/
def fillnaCol (df : DFrame) (nm : String) (v : Val) : DFrame :=
  match df.colIdx nm with
  | none => df
  | some i => { df with rows := df.rows.map (fillAtRow i v) }

/-- `clean_data` from `src/srs/validation.py`: when any cell is missing,
fill numeric columns with 0, then non-numeric columns with "Unknown",
then, if a `method_in_dwh` column exists, fill its (by now none)
remaining missing cells with "unknown_method". -/
def clean_data (df : DFrame) (sheet_name : String) : DFrame :=
  let _ := sheet_name
  if df.hasNull then
    let df1 := fillna df (fun c => c.numeric) (.num 0)
    let df2 := fillna df1 (fun c => !c.numeric) (.str "Unknown")
    if (df2.colIdx "method_in_dwh").isSome then
      fillnaCol df2 "method_in_dwh" (.str "unknown_method")
    else df2
  else df

def reqTransactions : List String := ["month", "currency", "method", "total transactions"]

def reqCountry : List String := ["currency", "country"]

def reqMethod : List String := ["method_in_dwh", "method_group"]

/-- The three logical roles and their required-column sets, as wired in
`load_and_prepare_data` (`src/srs/data_loading.py`). -/
def roleSpecs : List (String × List String) :=
  [("data", reqTransactions), ("country", reqCountry), ("method_group", reqMethod)]

/-- `load_and_prepare_data` from `src/srs/data_loading.py`, modelled from
the point where the three sheets have been read (file existence and
sheet presence are I/O concerns outside the embedding): validate the
three frames against their role contracts, then clean each and return
the cleaned frames. -/
def load_and_prepare_data (df countries methods : DFrame) :
    Except PyErr (DFrame × DFrame × DFrame) := do
  validate_data df "data" reqTransactions
  validate_data countries "country" reqCountry
  validate_data methods "method_group" reqMethod
  pure (clean_data df "data", clean_data countries "country",
        clean_data methods "method_group")

/-- Row `r` padded or truncated to exactly `n` cells (a pandas row always
has one cell per column). -/
def alignRow : Nat → Row → Row
  | 0, _ => []
  | n + 1, [] => none :: alignRow n []
  | n + 1, c :: cs => c :: alignRow n cs

/-- The cells a right-frame row contributes to a merged row: all of its
cells, with the join-key cell removed when the key is shared (`on=`). -/
def rightPart (r : DFrame) (ri : Nat) (dropKey : Bool) (s : Row) : Row :=
  let a := alignRow r.cols.length s
  if dropKey then a.eraseIdx ri else a

/-- The rows a single left row `t` produces in a left merge: one merged
row per matching right row, or a single row padded with missing cells
when no right row matches.  pandas matches key cells by equality
(missing keys match missing keys). -/
def expandRow (l r : DFrame) (li ri : Nat) (dropKey : Bool) (t : Row) : List Row :=
  let ms := r.rows.filter (fun s => decide (getCell s ri = getCell t li))
  if ms.isEmpty then
    [alignRow l.cols.length t ++
      List.replicate (if dropKey then r.cols.length - 1 else r.cols.length) none]
  else
    ms.map (fun s => alignRow l.cols.length t ++ rightPart r ri dropKey s)

/-- Columns of the merged frame: left columns, then right columns (minus
the shared key column for an `on=` merge). -/
def mergedCols (l r : DFrame) (ri : Nat) (dropKey : Bool) : List Col :=
  l.cols ++ (if dropKey then r.cols.eraseIdx ri else r.cols)

/-- `pd.merge(l, r, how='left')` joining `l.lk` against `r.rk`;
`dropKey = true` models `on='k'` (single key column kept, from the left
frame), `dropKey = false` models `left_on=`/`right_on=` (both key
columns kept).  Column-name collisions between the two frames, which
pandas resolves by `_x`/`_y` suffixing, are not modelled: lookups in the
merged frame take the leftmost column of a given name. -/
def merge_left (l r : DFrame) (lk rk : String) (dropKey : Bool) : Except PyErr DFrame :=
  match l.colIdx lk with
  | none => .error (.keyError lk)
  | some li =>
    match r.colIdx rk with
    | none => .error (.keyError rk)
    | some ri => .ok ⟨mergedCols l r ri dropKey, l.rows.flatMap (expandRow l r li ri dropKey)⟩

/-- The numeric value of a cell for summation; missing cells contribute
nothing (pandas `sum` skips NaN). -/
def cellNum : Cell → ℚ
  | some (.num q) => q
  | _ => 0

/-- Aggregated triple (total, approved, volume) of one row, given the
positions of the three summed columns. -/
abbrev T3 := ℚ × ℚ × ℚ

def rowTriple (ti ai vi : Nat) (r : Row) : T3 :=
  (cellNum (getCell r ti), cellNum (getCell r ai), cellNum (getCell r vi))

/-- Add one keyed value to an association list of per-group sums,
keeping the first-appearance order of keys. -/
def insertPair (acc : List (Val × T3)) (k : Val) (x : T3) : List (Val × T3) :=
  match acc with
  | [] => [(k, x)]
  | (k', y) :: rest =>
    if k' = k then (k', y + x) :: rest else (k', y) :: insertPair rest k x

def groupPairsGo (acc : List (Val × T3)) : List (Option Val × T3) → List (Val × T3)
  | [] => acc
  | (none, _) :: ps => groupPairsGo acc ps
  | (some k, x) :: ps => groupPairsGo (insertPair acc k x) ps

/-- `groupby(key).agg(sum)` on (key cell, value) pairs: rows whose key is
missing are dropped (pandas `dropna=True` default); each present key
yields one output pair carrying the sum of its group.  Keys are listed
in first-appearance order (pandas sorts them, but no stated property
depends on the order of summary rows). -/
def groupPairs (ps : List (Option Val × T3)) : List (Val × T3) :=
  groupPairsGo [] ps

/-- `df.groupby(key).agg({'total transactions': 'sum', 'approved_
transactions': 'sum', 'volume_usd': 'sum'}).reset_index()`: fails with a
KeyError when the grouping key or any aggregated column is absent. -/
def group_agg (df : DFrame) (key : String) : Except PyErr (List (Val × T3)) :=
  match df.colIdx key with
  | none => .error (.keyError key)
  | some ki =>
    match df.colIdx "total transactions" with
    | none => .error (.keyError "total transactions")
    | some ti =>
      match df.colIdx "approved_ transactions" with
      | none => .error (.keyError "approved_ transactions")
      | some ai =>
        match df.colIdx "volume_usd" with
        | none => .error (.keyError "volume_usd")
        | some vi =>
          .ok (groupPairs (df.rows.map (fun r => (getCell r ki, rowTriple ti ai vi r))))

/-- One row of a summary table: the grouping-key value, the three sums
and the derived approval rate. -/
structure SRow where
  key : Val
  total : ℚ
  approved : ℚ
  volume : ℚ
  approval_rate : ℚ
deriving DecidableEq, Repr

/-- `stats['approval_rate'] = approved / total.replace(0, 1)`: the
divisor 0 is replaced by 1 before dividing. -/
def addRate (g : List (Val × T3)) : List SRow :=
  g.map (fun p =>
    let t : ℚ := p.2.1
    let a : ℚ := p.2.2.1
    let v : ℚ := p.2.2.2
    { key := p.1, total := t, approved := a, volume := v,
      approval_rate := a / (if t = 0 then 1 else t) })

/-- `merge_and_calculate` from `src/srs/main.py`: left-join transactions
to the country lookup on `currency` and to the method lookup on
`method`/`method_in_dwh`, then build the three grouped summaries with
the approval-rate column.  The source's `except` clause logs and
re-raises the caught exception unchanged, so errors propagate as they
arise. -/
def merge_and_calculate (df countries methods : DFrame) :
    Except PyErr (List SRow × List SRow × List SRow) := do
  let df_with_countries ← merge_left df countries "currency" "currency" true
  let df_with_methods ← merge_left df methods "method" "method_in_dwh" false
  let monthly_stats ← group_agg df "month"
  let country_stats ← group_agg df_with_countries "country"
  let method_stats ← group_agg df_with_methods "method_group"
  pure (addRate monthly_stats, addRate country_stats, addRate method_stats)

/-- Sum of one numeric column over a whole frame (0 when the column is
absent). -/
def colSum (df : DFrame) (nm : String) : ℚ :=
  match df.colIdx nm with
  | some i => (df.rows.map (fun r => cellNum (getCell r i))).sum
  | none => 0

/-- Sum of `total_transactions` over a summary table. -/
def sumTotals (s : List SRow) : ℚ := (s.map (fun row => row.total)).sum

/-- The named column exists and no row has a missing cell there. -/
def colAllPresent (df : DFrame) (nm : String) : Bool :=
  match df.colIdx nm with
  | some i => df.rows.all (fun r => (getCell r i).isSome)
  | none => false

/-- The key cell `k` matches exactly one row of the lookup frame, and
that row's value column is present. -/
def resolvesOnce (lookup : DFrame) (kc vc : String) (k : Cell) : Bool :=
  match lookup.colIdx kc, lookup.colIdx vc with
  | some ki, some vi =>
    match lookup.rows.filter (fun s => decide (getCell s ki = k)) with
    | [s] => (getCell s vi).isSome
    | _ => false
  | _, _ => false

/-- Every row's key cell (column `c` of `df`) resolves uniquely through
the lookup frame. -/
def allResolveOnce (df : DFrame) (c : String) (lookup : DFrame) (kc vc : String) : Bool :=
  match df.colIdx c with
  | some ci => df.rows.all (fun r => resolvesOnce lookup kc vc (getCell r ci))
  | none => false

/-- No row's key cell (column `c` of `df`) matches any row of the lookup
frame. -/
def noMatches (df : DFrame) (c : String) (lookup : DFrame) (kc : String) : Bool :=
  match df.colIdx c, lookup.colIdx kc with
  | some ci, some ki =>
    df.rows.all (fun t => lookup.rows.all (fun s => decide (getCell s ki ≠ getCell t ci)))
  | _, _ => false

/-! Concrete frames used by counterexamples and witnesses.  `dfE`, `cE`,
`mE` are the end-to-end example of the specification (§8). -/

def dfCols : List Col :=
  [⟨"month", false⟩, ⟨"currency", false⟩, ⟨"method", false⟩,
   ⟨"total transactions", true⟩, ⟨"approved_ transactions", true⟩, ⟨"volume_usd", true⟩]

def dfE : DFrame :=
  ⟨dfCols,
   [[some (.str "2024-01"), some (.str "USD"), some (.str "card"),
     some (.num 100), some (.num 80), some (.num 10000)]]⟩

def cE : DFrame :=
  ⟨[⟨"currency", false⟩, ⟨"country", false⟩], [[some (.str "USD"), some (.str "US")]]⟩

def mE : DFrame :=
  ⟨[⟨"method_in_dwh", false⟩, ⟨"method_group", false⟩],
   [[some (.str "card"), some (.str "Cards")]]⟩

/-- A transaction row whose group has `total_transactions = 0` but
`approved_transactions = 5`. -/
def dfZero : DFrame :=
  ⟨dfCols,
   [[some (.str "2024-01"), some (.str "USD"), some (.str "card"),
     some (.num 0), some (.num 5), some (.num 0)]]⟩

/-- A transaction row whose currency "XYZ" has no country-lookup match. -/
def dfUnmatched : DFrame :=
  ⟨dfCols,
   [[some (.str "2024-01"), some (.str "XYZ"), some (.str "card"),
     some (.num 10), some (.num 5), some (.num 1)]]⟩

/-- A transaction row with both lookups unmatched (currency "ZZZ",
method "wire"). -/
def dfOrphan : DFrame :=
  ⟨dfCols,
   [[some (.str "2024-01"), some (.str "ZZZ"), some (.str "wire"),
     some (.num 7), some (.num 3), some (.num 2)]]⟩

/-- A method-lookup frame with a missing `method_in_dwh` cell. -/
def mMissing : DFrame :=
  ⟨[⟨"method_in_dwh", false⟩, ⟨"method_group", false⟩], [[none, some (.str "Cards")]]⟩

/-- A transaction frame with a missing `volume_usd` cell (otherwise the
end-to-end example row). -/
def dfHole : DFrame :=
  ⟨dfCols,
   [[some (.str "2024-01"), some (.str "USD"), some (.str "card"),
     some (.num 100), some (.num 80), none]]⟩

/-- A transaction frame carrying all validator-required columns but no
`approved_ transactions` column. -/
def dfNoApproved : DFrame :=
  ⟨[⟨"month", false⟩, ⟨"currency", false⟩, ⟨"method", false⟩,
    ⟨"total transactions", true⟩, ⟨"volume_usd", true⟩],
   [[some (.str "2024-01"), some (.str "USD"), some (.str "card"),
     some (.num 100), some (.num 10000)]]⟩

/-- A transaction frame with no `volume_usd` column. -/
def dfNoVolume : DFrame :=
  ⟨[⟨"month", false⟩, ⟨"currency", false⟩, ⟨"method", false⟩,
    ⟨"total transactions", true⟩, ⟨"approved_ transactions", true⟩],
   [[some (.str "2024-01"), some (.str "USD"), some (.str "card"),
     some (.num 100), some (.num 80)]]⟩

/-- Expected summaries of the end-to-end example. -/
def bmE : List SRow := [⟨.str "2024-01", 100, 80, 10000, 80 / 100⟩]

def bcE : List SRow := [⟨.str "US", 100, 80, 10000, 80 / 100⟩]

def bgE : List SRow := [⟨.str "Cards", 100, 80, 10000, 80 / 100⟩]

/-- Expected by-month summary of `dfOrphan`. -/
def bmO : List SRow := [⟨.str "2024-01", 7, 3, 2, 3 / 7⟩]

/-- Expected by-month and by-method-group summaries of `dfUnmatched`. -/
def bmU : List SRow := [⟨.str "2024-01", 10, 5, 1, 5 / 10⟩]

def bgU : List SRow := [⟨.str "Cards", 10, 5, 1, 5 / 10⟩]

/-- Expected summaries of `dfZero` (totals 0, approved 5). -/
def bmZ : List SRow := [⟨.str "2024-01", 0, 5, 0, 5⟩]

def bcZ : List SRow := [⟨.str "US", 0, 5, 0, 5⟩]

def bgZ : List SRow := [⟨.str "Cards", 0, 5, 0, 5⟩]

theorem ok_bind {ε α β : Type} (a : α) (f : α → Except ε β) :
    (Except.ok a >>= f : Except ε β) = f a := rfl

theorem error_bind {ε α β : Type} (e : ε) (f : α → Except ε β) :
    (Except.error e >>= f : Except ε β) = .error e := rfl

theorem ok_map {ε α β : Type} (f : α → β) (a : α) :
    (f <$> (Except.ok a : Except ε α) : Except ε β) = .ok (f a) := rfl

theorem error_map {ε α β : Type} (f : α → β) (e : ε) :
    (f <$> (Except.error e : Except ε α) : Except ε β) = .error e := rfl

theorem pure_except {ε α : Type} (a : α) : (pure a : Except ε α) = .ok a := rfl

theorem cell_isSome_iff (c : Cell) : c.isSome = true ↔ ¬ c.isNone = true := by
  cases c <;> simp

theorem colIdxA_none_iff (cols : List Col) (nm : String) :
    colIdxA cols nm = none ↔ ∀ col ∈ cols, ¬ col.name = nm := by
  induction cols with
  | nil => simp [colIdxA]
  | cons c cs ih =>
    by_cases hc : c.name = nm
    · simp [colIdxA, hc]
    · simp [colIdxA, hc, Option.map_eq_none', ih]

theorem colIdxA_lt {cols : List Col} {nm : String} {i : Nat}
    (h : colIdxA cols nm = some i) : i < cols.length := by
  induction cols generalizing i with
  | nil => simp [colIdxA] at h
  | cons c cs ih =>
    by_cases hc : c.name = nm
    · simp only [colIdxA, hc, if_true, Option.some.injEq] at h
      simp [← h]
    · simp only [colIdxA, hc, if_false, Option.map_eq_some'] at h
      obtain ⟨j, hj, rfl⟩ := h
      have := ih hj
      simp only [List.length_cons]
      omega

theorem colIdxA_name {cols : List Col} {nm : String} {i : Nat}
    (h : colIdxA cols nm = some i) :
    ∃ col, cols[i]? = some col ∧ col.name = nm := by
  induction cols generalizing i with
  | nil => simp [colIdxA] at h
  | cons c cs ih =>
    by_cases hc : c.name = nm
    · simp only [colIdxA, hc, if_true, Option.some.injEq] at h
      exact ⟨c, by simp [← h], hc⟩
    · simp only [colIdxA, hc, if_false, Option.map_eq_some'] at h
      obtain ⟨j, hj, rfl⟩ := h
      obtain ⟨col, hcol, hname⟩ := ih hj
      exact ⟨col, by simpa using hcol, hname⟩

theorem colIdxA_append (l1 l2 : List Col) (nm : String) :
    colIdxA (l1 ++ l2) nm =
      match colIdxA l1 nm with
      | some i => some i
      | none => (colIdxA l2 nm).map (fun j => l1.length + j) := by
  induction l1 with
  | nil => cases h : colIdxA l2 nm <;> simp [colIdxA, h]
  | cons c cs ih =>
    by_cases hc : c.name = nm
    · simp [colIdxA, hc]
    · cases h : colIdxA cs nm with
      | some i =>
        have hL : colIdxA (cs ++ l2) nm = some i := by rw [ih, h]
        simp [colIdxA, hc, hL, h]
      | none =>
        cases h2 : colIdxA l2 nm with
        | none =>
          have hL : colIdxA (cs ++ l2) nm = none := by rw [ih, h, h2]; rfl
          simp [colIdxA, hc, hL, h, h2]
        | some j =>
          have hL : colIdxA (cs ++ l2) nm = some (cs.length + j) := by rw [ih, h, h2]; rfl
          simp [colIdxA, hc, hL, h, h2, Nat.add_right_comm]

theorem length_alignRow (n : Nat) (r : Row) : (alignRow n r).length = n := by
  induction n generalizing r with
  | zero => simp [alignRow]
  | succ m ih =>
    cases r with
    | nil => simp [alignRow, ih]
    | cons c cs => simp [alignRow, ih]

theorem getCell_alignRow {n j : Nat} (r : Row) (h : j < n) :
    getCell (alignRow n r) j = getCell r j := by
  induction n generalizing r j with
  | zero => omega
  | succ m ih =>
    cases r with
    | nil =>
      cases j with
      | zero => simp [alignRow, getCell]
      | succ k =>
        have hk : k < m := by omega
        simp only [alignRow, getCell, List.getElem?_cons_succ, List.getElem?_nil]
        have := ih ([] : Row) hk
        simpa [getCell] using this
    | cons c cs =>
      cases j with
      | zero => simp [alignRow, getCell]
      | succ k =>
        have hk : k < m := by omega
        simpa [alignRow, getCell] using ih cs hk

theorem getCell_append_left {a b : Row} {j : Nat} (h : j < a.length) :
    getCell (a ++ b) j = getCell a j := by
  simp [getCell, List.getElem?_append, h]

theorem getCell_append_right (a b : Row) (j : Nat) :
    getCell (a ++ b) (a.length + j) = getCell b j := by
  have h : ¬ a.length + j < a.length := by omega
  simp [getCell, List.getElem?_append, h, Nat.add_sub_cancel_left]

theorem getCell_replicate (n j : Nat) :
    getCell (List.replicate n (none : Cell)) j = none := by
  rcases Nat.lt_or_ge j n with h | h
  · simp [getCell, List.getElem?_replicate, h]
  · have : (List.replicate n (none : Cell))[j]? = none := by
      apply List.getElem?_eq_none
      simpa using h
    simp [getCell, this]

theorem getCell_eraseIdx_lt {l : Row} {i j : Nat} (h : j < i) :
    getCell (l.eraseIdx i) j = getCell l j := by
  induction l generalizing i j with
  | nil => simp [List.eraseIdx]
  | cons x xs ih =>
    cases i with
    | zero => omega
    | succ m =>
      cases j with
      | zero => simp [List.eraseIdx, getCell]
      | succ k =>
        have hk : k < m := by omega
        simpa [List.eraseIdx, getCell] using ih hk

theorem getCell_eraseIdx_ge {l : Row} {i j : Nat} (hi : i < l.length) (h : i ≤ j) :
    getCell (l.eraseIdx i) j = getCell l (j + 1) := by
  induction l generalizing i j with
  | nil => simp at hi
  | cons x xs ih =>
    cases i with
    | zero => simp [List.eraseIdx, getCell]
    | succ m =>
      cases j with
      | zero => omega
      | succ k =>
        have hm : m < xs.length := by simpa using hi
        have hk : m ≤ k := by omega
        simpa [List.eraseIdx, getCell] using ih hm hk

theorem getCell_some_lt {r : Row} {j : Nat} {w : Val} (h : getCell r j = some w) :
    j < r.length := by
  by_contra hle
  push_neg at hle
  have hnone : r[j]? = none := List.getElem?_eq_none hle
  simp [getCell, hnone] at h

theorem fillRow_some (cols : List Col) (p : Col → Bool) (v : Val) (r : Row) (j : Nat)
    (w : Val) (hj : j < cols.length) (h : getCell r j = some w) :
    getCell (fillRow cols p v r) j = some w := by
  induction cols generalizing r j with
  | nil => simp at hj
  | cons c cs ih =>
    cases r with
    | nil => simp [getCell] at h
    | cons x xs =>
      cases j with
      | zero =>
        simp only [getCell, List.getElem?_cons_zero, Option.getD_some] at h
        simp [fillRow, getCell, h]
      | succ n =>
        simp only [getCell, List.getElem?_cons_succ] at h
        have hn : n < cs.length := by simpa using hj
        simpa [fillRow, getCell] using ih xs n hn h

theorem fillAtRow_length (i : Nat) (v : Val) (r : Row) :
    (fillAtRow i v r).length = r.length := by
  induction r generalizing i with
  | nil => simp [fillAtRow]
  | cons x xs ih =>
    cases i with
    | zero => simp [fillAtRow]
    | succ m => simp [fillAtRow, ih]

theorem fillAtRow_some (i : Nat) (v : Val) (r : Row) (j : Nat) (w : Val)
    (h : getCell r j = some w) : getCell (fillAtRow i v r) j = some w := by
  induction r generalizing i j with
  | nil => simp [getCell] at h
  | cons x xs ih =>
    cases i with
    | zero =>
      cases j with
      | zero =>
        simp only [getCell, List.getElem?_cons_zero, Option.getD_some] at h
        simp [fillAtRow, getCell, h]
      | succ n => simpa [fillAtRow, getCell] using h
    | succ m =>
      cases j with
      | zero => simpa [fillAtRow, getCell] using h
      | succ n =>
        simp only [getCell, List.getElem?_cons_succ] at h
        simpa [fillAtRow, getCell] using ih m n h

theorem double_fill_isSome (cols : List Col) (v1 v2 : Val) (r : Row) :
    ∀ cell ∈ fillRow cols (fun c => !c.numeric) v2 (fillRow cols (fun c => c.numeric) v1 r),
      cell.isSome = true := by
  induction cols generalizing r with
  | nil => simp [fillRow]
  | cons c cs ih =>
    cases r with
    | nil => simp [fillRow]
    | cons x xs =>
      simp only [fillRow, List.zipWith_cons_cons, List.mem_cons]
      rintro cell (rfl | hmem)
      · by_cases hc : c.numeric = true <;> cases x <;> simp [hc]
      · exact ih xs cell hmem

theorem fillAtRow_isSome (i : Nat) (v : Val) (r : Row)
    (h : ∀ cell ∈ r, cell.isSome = true) :
    ∀ cell ∈ fillAtRow i v r, cell.isSome = true := by
  induction r generalizing i with
  | nil => simp [fillAtRow]
  | cons x xs ih =>
    cases i with
    | zero =>
      simp only [fillAtRow, List.mem_cons]
      rintro cell (rfl | hc)
      · cases x <;> simp
      · exact h cell (List.mem_cons_of_mem _ hc)
    | succ m =>
      simp only [fillAtRow, List.mem_cons]
      rintro cell (rfl | hc)
      · exact h _ (List.mem_cons_self _ _)
      · exact ih m (fun cl hm => h cl (List.mem_cons_of_mem _ hm)) cell hc

theorem hasNull_false (df : DFrame)
    (h : ∀ r ∈ df.rows, ∀ cell ∈ r, cell.isSome = true) : df.hasNull = false := by
  simp only [DFrame.hasNull, List.any_eq_false, List.any_eq_true, not_exists, not_and]
  intro r hr cell hc
  exact (cell_isSome_iff cell).mp (h r hr cell hc)

theorem fillna_fillna_allSome (df : DFrame) (v1 v2 : Val) :
    ∀ r ∈ (fillna (fillna df (fun c => c.numeric) v1) (fun c => !c.numeric) v2).rows,
      ∀ cell ∈ r, cell.isSome = true := by
  simp only [fillna, List.mem_map]
  rintro r ⟨r1, hr1, rfl⟩
  obtain ⟨r0, _, rfl⟩ := hr1
  exact double_fill_isSome df.cols v1 v2 r0

theorem clean_data_hasNull (df : DFrame) (s : String) :
    (clean_data df s).hasNull = false := by
  by_cases hn : df.hasNull = true
  · have hall := fillna_fillna_allSome df (.num 0) (.str "Unknown")
    simp only [clean_data, hn, if_true]
    split
    · rename_i hidx
      apply hasNull_false
      rcases hdx : (fillna (fillna df (fun c => c.numeric) (.num 0))
          (fun c => !c.numeric) (.str "Unknown")).colIdx "method_in_dwh" with _ | i
      · simpa [fillnaCol, hdx] using hall
      · simp only [fillnaCol, hdx, List.mem_map]
        rintro r ⟨r0, hr0, rfl⟩
        exact fillAtRow_isSome i _ r0 (hall r0 hr0)
    · exact hasNull_false _ hall
  · have hn' : df.hasNull = false := by simpa using hn
    simp [clean_data, hn']

/-- C8: `clean_data` is idempotent: a second application is the identity
because the first pass leaves no missing cell. -/
theorem clean_data_idempotent (df : DFrame) (s t : String) :
    clean_data (clean_data df s) t = clean_data df s := by
  have h := clean_data_hasNull df s
  set X := clean_data df s
  simp [clean_data, h]

theorem fillna_cols (df : DFrame) (p : Col → Bool) (v : Val) :
    (fillna df p v).cols = df.cols := rfl

theorem fillnaCol_cols (df : DFrame) (nm : String) (v : Val) :
    (fillnaCol df nm v).cols = df.cols := by
  rcases h : df.colIdx nm with _ | i <;> simp [fillnaCol, h]

theorem fillnaCol_length (df : DFrame) (nm : String) (v : Val) :
    (fillnaCol df nm v).rows.length = df.rows.length := by
  rcases h : df.colIdx nm with _ | i <;> simp [fillnaCol, h]

theorem wf_spec {df : DFrame} (h : df.wf = true) :
    ∀ r ∈ df.rows, r.length = df.cols.length := by
  intro r hr
  have := List.all_eq_true.mp h r hr
  simpa using this

theorem tableCell_fillna {df : DFrame} (p : Col → Bool) (v : Val) {i j : Nat} {w : Val}
    (hwf : df.wf = true) (h : tableCell df i j = some (some w)) :
    tableCell (fillna df p v) i j = some (some w) := by
  rcases hrow : df.rows[i]? with _ | r
  · simp [tableCell, hrow] at h
  · have hc : getCell r j = some w := by
      simpa [tableCell, hrow] using h
    have hjr : j < r.length := getCell_some_lt hc
    have hjc : j < df.cols.length := by
      rw [← wf_spec hwf r (List.getElem?_mem hrow)]; exact hjr
    simp [tableCell, fillna, List.getElem?_map, hrow,
      fillRow_some df.cols p v r j w hjc hc]

theorem fillna_wf {df : DFrame} (p : Col → Bool) (v : Val) (hwf : df.wf = true) :
    (fillna df p v).wf = true := by
  simp only [DFrame.wf, fillna, List.all_eq_true, List.mem_map]
  rintro r ⟨r0, hr0, rfl⟩
  have := wf_spec hwf r0 hr0
  simp [fillRow, this]

theorem tableCell_fillnaCol {df : DFrame} (nm : String) (v : Val) {i j : Nat} {w : Val}
    (h : tableCell df i j = some (some w)) :
    tableCell (fillnaCol df nm v) i j = some (some w) := by
  rcases hdx : df.colIdx nm with _ | k
  · simpa [fillnaCol, hdx] using h
  · rcases hrow : df.rows[i]? with _ | r
    · simp [tableCell, hrow] at h
    · have hc : getCell r j = some w := by
        simpa [tableCell, hrow] using h
      simp [tableCell, fillnaCol, hdx, List.getElem?_map, hrow, fillAtRow_some k v r j w hc]

/-- C9: `clean_data` preserves the frame: same columns, same row count,
and every originally present cell keeps its value — only missing cells
are substituted. -/
theorem clean_data_frame_preserving (df : DFrame) (s : String) (hwf : df.wf = true) :
    (clean_data df s).cols = df.cols ∧
    (clean_data df s).rows.length = df.rows.length ∧
    ∀ i j w, tableCell df i j = some (some w) →
      tableCell (clean_data df s) i j = some (some w) := by
  by_cases hn : df.hasNull = true
  · simp only [clean_data, hn, if_true]
    have hwf1 := fillna_wf (fun c => c.numeric) (Val.num 0) hwf
    split
    · refine ⟨by simp [fillnaCol_cols, fillna_cols], by simp [fillnaCol_length, fillna], ?_⟩
      intro i j w h
      exact tableCell_fillnaCol _ _
        (tableCell_fillna _ _ hwf1 (tableCell_fillna _ _ hwf h))
    · refine ⟨by simp [fillna_cols], by simp [fillna], ?_⟩
      intro i j w h
      exact tableCell_fillna _ _ hwf1 (tableCell_fillna _ _ hwf h)
  · have hn' : df.hasNull = false := by simpa using hn
    simp [clean_data, hn']

/-- C9 witness: the end-to-end example frame is rectangular and its
cells survive cleaning unchanged. -/
theorem clean_data_frame_preserving_witness :
    dfE.wf = true ∧
    ((clean_data dfE "data").cols = dfE.cols ∧
     (clean_data dfE "data").rows.length = dfE.rows.length ∧
     ∀ i j w, tableCell dfE i j = some (some w) →
       tableCell (clean_data dfE "data") i j = some (some w)) :=
  ⟨by decide, clean_data_frame_preserving dfE "data" (by decide)⟩

/-- C4: evaluating `clean_data` on a method-lookup frame whose
`method_in_dwh` cell is missing: the generic categorical fill runs
first, so the cell ends up as "Unknown", not "unknown_method" — the
dedicated `method_in_dwh` fill is dead code. -/
theorem clean_data_method_in_dwh_dead :
    clean_data mMissing "method_group" =
      ⟨[⟨"method_in_dwh", false⟩, ⟨"method_group", false⟩],
       [[some (.str "Unknown"), some (.str "Cards")]]⟩ ∧
    Val.str "Unknown" ≠ Val.str "unknown_method" := by
  constructor
  · decide
  · decide

theorem validate_spec (df : DFrame) (sheet : String) (req : List String) (hreq : req ≠ []) :
    (df.rows = [] → ∃ e, validate_data df sheet req = .error e) ∧
    (df.rows ≠ [] → (∃ c ∈ req, c ∉ df.colNames) →
      ∃ e, validate_data df sheet req = .error e) ∧
    (df.rows ≠ [] → (∀ c ∈ req, c ∈ df.colNames) →
      validate_data df sheet req = .ok ()) := by
  have hreq' : req.isEmpty = false := by
    cases req with
    | nil => exact absurd rfl hreq
    | cons a l => rfl
  refine ⟨?_, ?_, ?_⟩
  · intro h
    exact ⟨.emptySheet sheet, by simp [validate_data, DFrame.empty, h]⟩
  · rintro hr ⟨c, hc, hnotin⟩
    by_cases he : df.empty = true
    · exact ⟨.emptySheet sheet, by simp [validate_data, he]⟩
    · have hne : df.empty = false := by simpa using he
      refine ⟨.missingColumns sheet (req.filter fun x => decide (x ∉ df.colNames)), ?_⟩
      have hmem : c ∈ req.filter fun x => decide (x ∉ df.colNames) :=
        List.mem_filter.mpr ⟨hc, by simpa using hnotin⟩
      have hmiss : (req.filter fun x => decide (x ∉ df.colNames)).isEmpty = false := by
        cases hf : req.filter fun x => decide (x ∉ df.colNames) with
        | nil => rw [hf] at hmem; simp at hmem
        | cons a l => rfl
      simp only [validate_data, hne, Bool.false_eq_true, if_false, hreq', hmiss]
  · intro hr hall
    have hcols : df.cols ≠ [] := by
      obtain ⟨c, hc⟩ := List.exists_mem_of_ne_nil req hreq
      have hmem := hall c hc
      intro hnil
      simp [DFrame.colNames, hnil] at hmem
    have hne : df.empty = false := by
      simp only [DFrame.empty, Bool.or_eq_false_iff]
      constructor
      · cases h : df.rows with
        | nil => exact absurd h hr
        | cons a l => rfl
      · cases h : df.cols with
        | nil => exact absurd h hcols
        | cons a l => rfl
    have hmiss : (req.filter fun x => decide (x ∉ df.colNames)) = [] := by
      rw [List.filter_eq_nil_iff]
      intro c hc
      simpa using hall c hc
    simp only [validate_data, hne, Bool.false_eq_true, if_false, hreq', hmiss,
      List.isEmpty_nil, if_true]

/-- C5: for each of the three logical roles with its fixed
required-column set, `validate_data` raises on every table with no
rows, raises on every non-empty table missing a required column, and
returns normally on every non-empty table containing all required
columns. -/
theorem validate_roles (role : String × List String) (hrole : role ∈ roleSpecs)
    (df : DFrame) :
    (df.rows = [] → ∃ e, validate_data df role.1 role.2 = .error e) ∧
    (df.rows ≠ [] → (∃ c ∈ role.2, c ∉ df.colNames) →
      ∃ e, validate_data df role.1 role.2 = .error e) ∧
    (df.rows ≠ [] → (∀ c ∈ role.2, c ∈ df.colNames) →
      validate_data df role.1 role.2 = .ok ()) := by
  apply validate_spec
  simp only [roleSpecs, List.mem_cons, List.not_mem_nil, or_false] at hrole
  rcases hrole with rfl | rfl | rfl <;>
    simp [reqTransactions, reqCountry, reqMethod]

/-- C5 witness: the transactions role accepts the example frame, which
is non-empty and carries all required columns. -/
theorem validate_roles_witness :
    (("data", reqTransactions) ∈ roleSpecs) ∧ dfE.rows ≠ [] ∧
    (∀ c ∈ reqTransactions, c ∈ dfE.colNames) ∧
    validate_data dfE "data" reqTransactions = .ok () :=
  ⟨by decide, by decide, by decide,
    (validate_roles ("data", reqTransactions) (by decide) dfE).2.2 (by decide) (by decide)⟩

theorem insertPair_sum (acc : List (Val × T3)) (k : Val) (x : T3) :
    ((insertPair acc k x).map (fun q => q.2)).sum = ((acc.map (fun q => q.2)).sum) + x := by
  induction acc with
  | nil => simp [insertPair]
  | cons p rest ih =>
    obtain ⟨k', y⟩ := p
    by_cases hk : k' = k
    · simp only [insertPair, hk, if_true, List.map_cons, List.sum_cons]
      exact add_right_comm y x _
    · simp only [insertPair, hk, if_false, List.map_cons, List.sum_cons, ih]
      exact (add_assoc _ _ _).symm

theorem groupPairsGo_sum (acc : List (Val × T3)) (ps : List (Option Val × T3)) :
    ((groupPairsGo acc ps).map (fun q => q.2)).sum =
      ((acc.map (fun q => q.2)).sum) +
        (((ps.filter (fun p => p.1.isSome)).map (fun p => p.2)).sum) := by
  induction ps generalizing acc with
  | nil => simp [groupPairsGo]
  | cons p rest ih =>
    obtain ⟨ok, x⟩ := p
    cases ok with
    | none => simpa [groupPairsGo] using ih acc
    | some k =>
      rw [groupPairsGo, ih (insertPair acc k x), insertPair_sum]
      simp [List.filter_cons, add_assoc]

theorem groupPairs_sum (ps : List (Option Val × T3)) :
    ((groupPairs ps).map (fun q => q.2)).sum =
      ((ps.filter (fun p => p.1.isSome)).map (fun p => p.2)).sum := by
  simpa [groupPairs] using groupPairsGo_sum [] ps

theorem fst_sum (l : List T3) : l.sum.1 = (l.map (fun x => x.1)).sum := by
  induction l with
  | nil => rfl
  | cons x xs ih => simp [ih, Prod.fst_add]

theorem groupPairsGo_all_none (acc : List (Val × T3)) (ps : List (Option Val × T3))
    (h : ∀ p ∈ ps, p.1 = none) : groupPairsGo acc ps = acc := by
  induction ps generalizing acc with
  | nil => rfl
  | cons p rest ih =>
    obtain ⟨ok, x⟩ := p
    have h0 : ok = none := h _ (List.mem_cons_self _ _)
    subst h0
    exact ih acc (fun q hq => h q (List.mem_cons_of_mem _ hq))

theorem groupPairs_all_none (ps : List (Option Val × T3))
    (h : ∀ p ∈ ps, p.1 = none) : groupPairs ps = [] :=
  groupPairsGo_all_none [] ps h

theorem addRate_rate {g : List (Val × T3)} {row : SRow} (h : row ∈ addRate g) :
    row.approval_rate = row.approved / (if row.total = 0 then 1 else row.total) := by
  simp only [addRate, List.mem_map] at h
  obtain ⟨p, _, rfl⟩ := h
  rfl

theorem sumTotals_addRate (g : List (Val × T3)) :
    sumTotals (addRate g) = (g.map (fun p => p.2.1)).sum := by
  induction g with
  | nil => rfl
  | cons p rest ih =>
    simp only [sumTotals, addRate, List.map_cons, List.sum_cons] at ih ⊢
    rw [ih]

theorem merge_left_ok {l r : DFrame} {lk rk : String} {b : Bool} {M : DFrame}
    (h : merge_left l r lk rk b = .ok M) :
    ∃ li ri, l.colIdx lk = some li ∧ r.colIdx rk = some ri ∧
      M = ⟨mergedCols l r ri b, l.rows.flatMap (expandRow l r li ri b)⟩ := by
  unfold merge_left at h
  rcases h1 : l.colIdx lk with _ | li <;> rw [h1] at h
  · exact absurd h (by simp)
  rcases h2 : r.colIdx rk with _ | ri <;> rw [h2] at h
  · exact absurd h (by simp)
  exact ⟨li, ri, rfl, rfl, (Except.ok.inj h).symm⟩

theorem group_agg_ok {d : DFrame} {key : String} {g : List (Val × T3)}
    (h : group_agg d key = .ok g) :
    ∃ ki ti ai vi, d.colIdx key = some ki ∧
      d.colIdx "total transactions" = some ti ∧
      d.colIdx "approved_ transactions" = some ai ∧
      d.colIdx "volume_usd" = some vi ∧
      g = groupPairs (d.rows.map (fun r => (getCell r ki, rowTriple ti ai vi r))) := by
  unfold group_agg at h
  rcases h1 : d.colIdx key with _ | ki <;> rw [h1] at h
  · exact absurd h (by simp)
  rcases h2 : d.colIdx "total transactions" with _ | ti <;> rw [h2] at h
  · exact absurd h (by simp)
  rcases h3 : d.colIdx "approved_ transactions" with _ | ai <;> rw [h3] at h
  · exact absurd h (by simp)
  rcases h4 : d.colIdx "volume_usd" with _ | vi <;> rw [h4] at h
  · exact absurd h (by simp)
  exact ⟨ki, ti, ai, vi, rfl, rfl, rfl, rfl, (Except.ok.inj h).symm⟩

theorem merge_calc_ok {df c m : DFrame} {bm bc bg : List SRow}
    (h : merge_and_calculate df c m = .ok (bm, bc, bg)) :
    ∃ M1 M2 g1 g2 g3,
      merge_left df c "currency" "currency" true = .ok M1 ∧
      merge_left df m "method" "method_in_dwh" false = .ok M2 ∧
      group_agg df "month" = .ok g1 ∧
      group_agg M1 "country" = .ok g2 ∧
      group_agg M2 "method_group" = .ok g3 ∧
      bm = addRate g1 ∧ bc = addRate g2 ∧ bg = addRate g3 := by
  unfold merge_and_calculate at h
  rcases h1 : merge_left df c "currency" "currency" true with e1 | M1 <;> rw [h1] at h
  · rw [error_bind] at h; exact absurd h (by simp)
  rw [ok_bind] at h
  rcases h2 : merge_left df m "method" "method_in_dwh" false with e2 | M2 <;> rw [h2] at h
  · rw [error_bind] at h; exact absurd h (by simp)
  rw [ok_bind] at h
  rcases h3 : group_agg df "month" with e3 | g1 <;> rw [h3] at h
  · rw [error_bind] at h; exact absurd h (by simp)
  rw [ok_bind] at h
  rcases h4 : group_agg M1 "country" with e4 | g2 <;> rw [h4] at h
  · rw [error_bind] at h; exact absurd h (by simp)
  rw [ok_bind] at h
  rcases h5 : group_agg M2 "method_group" with e5 | g3 <;> rw [h5] at h
  · rw [error_bind] at h; exact absurd h (by simp)
  rw [ok_bind, pure_except] at h
  have h' := Except.ok.inj h
  obtain ⟨rfl, rfl, rfl⟩ : addRate g1 = bm ∧ addRate g2 = bc ∧ addRate g3 = bg :=
    ⟨congrArg (fun t => t.1) h', congrArg (fun t => t.2.1) h',
     congrArg (fun t => t.2.2) h'⟩
  exact ⟨M1, M2, g1, g2, g3, rfl, rfl, rfl, h4, h5, rfl, rfl, rfl⟩

/-- C6 counterexample: the loader does not return the three tables as
read.  On a transactions frame with one missing `volume_usd` cell (and
the example lookup frames) `load_and_prepare_data` succeeds but returns
a repaired frame — the missing cell comes back as 0 — so Validator and
Cleaner are applied inside the loader. -/
theorem loader_not_raw_counterexample :
    load_and_prepare_data dfHole cE mE =
      .ok (⟨dfCols,
            [[some (.str "2024-01"), some (.str "USD"), some (.str "card"),
              some (.num 100), some (.num 80), some (.num 0)]]⟩, cE, mE) ∧
    load_and_prepare_data dfHole cE mE ≠ .ok (dfHole, cE, mE) := by
  constructor
  · decide
  · decide

/-- C6 amended: the loader applies the Validator and the Cleaner
internally: whenever the three frames pass their role validations,
`load_and_prepare_data` returns the three frames cleaned by
`clean_data`, not as read. -/
theorem loader_applies_validator_and_cleaner (d c m : DFrame)
    (h1 : validate_data d "data" reqTransactions = .ok ())
    (h2 : validate_data c "country" reqCountry = .ok ())
    (h3 : validate_data m "method_group" reqMethod = .ok ()) :
    load_and_prepare_data d c m =
      .ok (clean_data d "data", clean_data c "country", clean_data m "method_group") := by
  simp [load_and_prepare_data, h1, h2, h3, ok_bind, pure_except]

/-- C6 amended witness: concrete run of the loader on validated frames. -/
theorem loader_applies_validator_and_cleaner_witness :
    validate_data dfHole "data" reqTransactions = .ok () ∧
    validate_data cE "country" reqCountry = .ok () ∧
    validate_data mE "method_group" reqMethod = .ok () ∧
    load_and_prepare_data dfHole cE mE =
      .ok (clean_data dfHole "data", clean_data cE "country", clean_data mE "method_group") :=
  ⟨by decide, by decide, by decide,
    loader_applies_validator_and_cleaner dfHole cE mE (by decide) (by decide) (by decide)⟩

theorem colIdxA_append_left {l1 : List Col} (l2 : List Col) {nm : String} {i : Nat}
    (h : colIdxA l1 nm = some i) : colIdxA (l1 ++ l2) nm = some i := by
  rw [colIdxA_append, h]

theorem colIdxA_append_right {l1 : List Col} (l2 : List Col) {nm : String}
    (h : colIdxA l1 nm = none) :
    colIdxA (l1 ++ l2) nm = (colIdxA l2 nm).map (fun j => l1.length + j) := by
  rw [colIdxA_append, h]

/-- Every merged row produced from an unmatched left row carries a
missing key cell at any merged-column position past the left block, so
grouping assigns it to no group. -/
theorem grouped_empty_of_unmatched (l r : DFrame) (li ri : Nat) (b : Bool) (nm : String)
    (ki ti ai vi : Nat)
    (hnone : colIdxA l.cols nm = none)
    (hki : colIdxA (mergedCols l r ri b) nm = some ki)
    (hnm : ∀ t ∈ l.rows, ∀ s ∈ r.rows, ¬ getCell s ri = getCell t li) :
    groupPairs ((l.rows.flatMap (expandRow l r li ri b)).map
      (fun u => (getCell u ki, rowTriple ti ai vi u))) = [] := by
  apply groupPairs_all_none
  rintro p hp
  obtain ⟨u, hu, rfl⟩ := List.mem_map.mp hp
  obtain ⟨t, ht, hut⟩ := List.mem_flatMap.mp hu
  have hfil : r.rows.filter (fun s => decide (getCell s ri = getCell t li)) = [] :=
    List.filter_eq_nil_iff.mpr (fun s hs => by simpa using hnm t ht s hs)
  rw [expandRow] at hut
  simp only [hfil, List.isEmpty_nil, if_true, List.mem_singleton] at hut
  subst hut
  obtain ⟨j, hj, rfl⟩ : ∃ j,
      colIdxA (if b then r.cols.eraseIdx ri else r.cols) nm = some j ∧
        ki = l.cols.length + j := by
    rw [mergedCols, colIdxA_append_right _ hnone] at hki
    obtain ⟨j, hj, hkij⟩ := Option.map_eq_some'.mp hki
    exact ⟨j, hj, hkij.symm⟩
  show getCell (alignRow l.cols.length t ++
    List.replicate (if b then r.cols.length - 1 else r.cols.length) none)
      (l.cols.length + j) = none
  have hlen : l.cols.length + j = (alignRow l.cols.length t).length + j := by
    rw [length_alignRow]
  rw [hlen, getCell_append_right]
  exact getCell_replicate _ _

/-- C10: a non-empty transactions frame carrying all
validator-required columns but no `approved_ transactions` column
passes `validate_data`, yet `merge_and_calculate` raises (a KeyError
for the column the aggregation reads): successful validation does not
guarantee the aggregated columns exist. -/
theorem validated_but_aggregation_raises :
    ∃ df : DFrame, df.rows ≠ [] ∧
      (∀ c ∈ reqTransactions, c ∈ df.colNames) ∧
      "approved_ transactions" ∉ df.colNames ∧
      validate_data df "data" reqTransactions = .ok () ∧
      merge_and_calculate df cE mE = .error (.keyError "approved_ transactions") :=
  ⟨dfNoApproved, by decide, by decide, by decide, by decide, by decide⟩

theorem merge_calc_dfE_eval : merge_and_calculate dfE cE mE = .ok (bmE, bcE, bgE) := by
  simp [merge_and_calculate, merge_left, mergedCols, expandRow, rightPart, alignRow,
    group_agg, groupPairs, groupPairsGo, insertPair, addRate, rowTriple, cellNum, getCell,
    DFrame.colIdx, colIdxA, dfE, cE, mE, bmE, bcE, bgE, dfCols,
    ok_bind, error_bind, ok_map, error_map, pure_except]

theorem merge_calc_dfZero_eval : merge_and_calculate dfZero cE mE = .ok (bmZ, bcZ, bgZ) := by
  simp [merge_and_calculate, merge_left, mergedCols, expandRow, rightPart, alignRow,
    group_agg, groupPairs, groupPairsGo, insertPair, addRate, rowTriple, cellNum, getCell,
    DFrame.colIdx, colIdxA, dfZero, cE, mE, bmZ, bcZ, bgZ, dfCols,
    ok_bind, error_bind, ok_map, error_map, pure_except]

theorem merge_calc_dfUnmatched_eval :
    merge_and_calculate dfUnmatched cE mE = .ok (bmU, [], bgU) := by
  simp [merge_and_calculate, merge_left, mergedCols, expandRow, rightPart, alignRow,
    group_agg, groupPairs, groupPairsGo, insertPair, addRate, rowTriple, cellNum, getCell,
    DFrame.colIdx, colIdxA, dfUnmatched, cE, mE, bmU, bgU, dfCols,
    ok_bind, error_bind, ok_map, error_map, pure_except]

theorem merge_calc_dfOrphan_eval :
    merge_and_calculate dfOrphan cE mE = .ok (bmO, [], []) := by
  simp [merge_and_calculate, merge_left, mergedCols, expandRow, rightPart, alignRow,
    group_agg, groupPairs, groupPairsGo, insertPair, addRate, rowTriple, cellNum, getCell,
    DFrame.colIdx, colIdxA, dfOrphan, cE, mE, bmO, dfCols,
    ok_bind, error_bind, ok_map, error_map, pure_except]

/-- C1 counterexample: a group with `total_transactions = 0` and
`approved_transactions = 5` gets `approval_rate = 5 / replace(0, 1)
= 5`, not 0, in every summary — the claim's "approval_rate equal to 0
when total_transactions == 0" fails on the code. -/
theorem approval_rate_zero_total_counterexample :
    merge_and_calculate dfZero cE mE = .ok (bmZ, bcZ, bgZ) ∧
    ¬ (∀ row ∈ bmZ, row.total = 0 → row.approval_rate = 0) := by
  refine ⟨merge_calc_dfZero_eval, ?_⟩
  intro hAll
  have h := hAll ⟨Val.str "2024-01", 0, 5, 0, 5⟩ (by simp [bmZ]) rfl
  norm_num at h

/-- C1 (amended): in every summary row the divisor is never zero (no
division fault), `approval_rate = approved / total` whenever
`total ≠ 0`, and `approval_rate = approved / 1 = approved` when
`total = 0` (which is 0 exactly when the group's approved sum is 0). -/
theorem merge_approval_rate (df c m : DFrame) (bm bc bg : List SRow)
    (h : merge_and_calculate df c m = .ok (bm, bc, bg)) :
    ∀ row : SRow, row ∈ bm ∨ row ∈ bc ∨ row ∈ bg →
      ((if row.total = 0 then (1 : ℚ) else row.total) ≠ 0) ∧
      (row.total ≠ 0 → row.approval_rate = row.approved / row.total) ∧
      (row.total = 0 → row.approval_rate = row.approved) := by
  obtain ⟨M1, M2, g1, g2, g3, _, _, _, _, _, rfl, rfl, rfl⟩ := merge_calc_ok h
  intro row hrow
  have hrate : row.approval_rate =
      row.approved / (if row.total = 0 then 1 else row.total) := by
    rcases hrow with h' | h' | h' <;> exact addRate_rate h'
  refine ⟨?_, ?_, ?_⟩
  · by_cases ht : row.total = 0 <;> simp [ht]
  · intro ht; simp [hrate, ht]
  · intro ht; simp [hrate, ht]

/-- C1 (amended) witness: the rate contract evaluated on the end-to-end
example. -/
theorem merge_approval_rate_witness :
    merge_and_calculate dfE cE mE = .ok (bmE, bcE, bgE) ∧
    (∀ row : SRow, row ∈ bmE ∨ row ∈ bcE ∨ row ∈ bgE →
      ((if row.total = 0 then (1 : ℚ) else row.total) ≠ 0) ∧
      (row.total ≠ 0 → row.approval_rate = row.approved / row.total) ∧
      (row.total = 0 → row.approval_rate = row.approved)) :=
  ⟨merge_calc_dfE_eval, merge_approval_rate dfE cE mE bmE bcE bgE merge_calc_dfE_eval⟩

/-- C3 counterexample: the transaction row of `dfOrphan` (currency
"ZZZ", method "wire") matches neither lookup frame; its counts appear
in no byCountry and no byMethodGroup group — both summaries are empty,
there is no "unresolved" bucket. -/
theorem unresolved_dropped_counterexample :
    merge_and_calculate dfOrphan cE mE = .ok (bmO, [], []) ∧
    colSum dfOrphan "total transactions" = 7 ∧ (7 : ℚ) ≠ 0 := by
  refine ⟨merge_calc_dfOrphan_eval, ?_, by norm_num⟩
  simp [colSum, DFrame.colIdx, colIdxA, dfOrphan, dfCols, getCell, cellNum]

/-- C3 (amended): a transaction row whose join key matches no lookup row
is dropped by the grouping (its joined key cell is missing and pandas
groupby drops missing keys): when no row matches the country lookup,
`byCountry` is empty, and when no row matches the method lookup,
`byMethodGroup` is empty — there is no unresolved bucket.  (The
transaction table is assumed not to carry its own `country` or
`method_group` column, which pandas would disambiguate by suffixing.) -/
theorem unmatched_rows_dropped (df c m : DFrame) (bm bc bg : List SRow)
    (h : merge_and_calculate df c m = .ok (bm, bc, bg))
    (hnc : "country" ∉ df.colNames)
    (hng : "method_group" ∉ df.colNames) :
    (noMatches df "currency" c "currency" = true → bc = []) ∧
    (noMatches df "method" m "method_in_dwh" = true → bg = []) := by
  obtain ⟨M1, M2, g1, g2, g3, h1, h2, h3, h4, h5, rfl, rfl, rfl⟩ := merge_calc_ok h
  obtain ⟨li, ri, hli, hri, rfl⟩ := merge_left_ok h1
  obtain ⟨li2, ri2, hli2, hri2, rfl⟩ := merge_left_ok h2
  obtain ⟨ki, ti, ai, vi, hki, ht1, ha1, hv1, rfl⟩ := group_agg_ok h4
  obtain ⟨ki2, ti2, ai2, vi2, hki2, ht2, ha2, hv2, rfl⟩ := group_agg_ok h5
  have hnone1 : colIdxA df.cols "country" = none :=
    (colIdxA_none_iff _ _).mpr
      (fun col hcol heq => hnc (List.mem_map.mpr ⟨col, hcol, heq⟩))
  have hnone2 : colIdxA df.cols "method_group" = none :=
    (colIdxA_none_iff _ _).mpr
      (fun col hcol heq => hng (List.mem_map.mpr ⟨col, hcol, heq⟩))
  constructor
  · intro hnm
    simp only [noMatches, hli, hri, List.all_eq_true, decide_eq_true_eq] at hnm
    have hempty := grouped_empty_of_unmatched df c li ri true "country" ki ti ai vi
      hnone1 hki hnm
    show addRate (groupPairs ((df.rows.flatMap (expandRow df c li ri true)).map
      (fun u => (getCell u ki, rowTriple ti ai vi u)))) = []
    rw [hempty]
    rfl
  · intro hnm
    simp only [noMatches, hli2, hri2, List.all_eq_true, decide_eq_true_eq] at hnm
    have hempty := grouped_empty_of_unmatched df m li2 ri2 false "method_group"
      ki2 ti2 ai2 vi2 hnone2 hki2 hnm
    show addRate (groupPairs ((df.rows.flatMap (expandRow df m li2 ri2 false)).map
      (fun u => (getCell u ki2, rowTriple ti2 ai2 vi2 u)))) = []
    rw [hempty]
    rfl

/-- C3 (amended) witness: on `dfOrphan` nothing matches either lookup
frame and both joined summaries come back empty. -/
theorem unmatched_rows_dropped_witness :
    merge_and_calculate dfOrphan cE mE = .ok (bmO, [], []) ∧
    "country" ∉ dfOrphan.colNames ∧ "method_group" ∉ dfOrphan.colNames ∧
    noMatches dfOrphan "currency" cE "currency" = true ∧
    noMatches dfOrphan "method" mE "method_in_dwh" = true ∧
    ([] : List SRow) = [] ∧ ([] : List SRow) = [] :=
  ⟨merge_calc_dfOrphan_eval, by decide, by decide, by decide, by decide,
   (unmatched_rows_dropped dfOrphan cE mE bmO [] [] merge_calc_dfOrphan_eval
     (by decide) (by decide)).1 (by decide),
   (unmatched_rows_dropped dfOrphan cE mE bmO [] [] merge_calc_dfOrphan_eval
     (by decide) (by decide)).2 (by decide)⟩

theorem merge_left_error {l r : DFrame} {lk rk : String} {b : Bool} {e : PyErr}
    (h : merge_left l r lk rk b = .error e) :
    e = .keyError lk ∨ e = .keyError rk := by
  unfold merge_left at h
  rcases h1 : l.colIdx lk with _ | li <;> rw [h1] at h
  · exact Or.inl (Except.error.inj h).symm
  rcases h2 : r.colIdx rk with _ | ri <;> rw [h2] at h
  · exact Or.inr (Except.error.inj h).symm
  · exact absurd h (by simp)

theorem group_agg_error {d : DFrame} {key : String} {e : PyErr}
    (h : group_agg d key = .error e) : ∃ k, e = .keyError k := by
  unfold group_agg at h
  rcases h1 : d.colIdx key with _ | ki <;> rw [h1] at h
  · exact ⟨key, (Except.error.inj h).symm⟩
  rcases h2 : d.colIdx "total transactions" with _ | ti <;> rw [h2] at h
  · exact ⟨_, (Except.error.inj h).symm⟩
  rcases h3 : d.colIdx "approved_ transactions" with _ | ai <;> rw [h3] at h
  · exact ⟨_, (Except.error.inj h).symm⟩
  rcases h4 : d.colIdx "volume_usd" with _ | vi <;> rw [h4] at h
  · exact ⟨_, (Except.error.inj h).symm⟩
  · exact absurd h (by simp)

/-- C7 counterexample: an internal computation fault (the aggregation
reads the absent `approved_ transactions`-style columns — here
`volume_usd`) escapes `merge_and_calculate` as the raw KeyError, not as
a wrapped AggregationError. -/
theorem no_aggregation_wrapping_counterexample :
    merge_and_calculate dfNoVolume cE mE = .error (.keyError "volume_usd") ∧
    (PyErr.keyError "volume_usd").isAggregation = false :=
  ⟨by decide, by decide⟩

/-- C7 (amended): the source's `except` clause only logs and re-raises,
so every error surfaced by `merge_and_calculate` is the raw fault (a
KeyError here); none is a wrapped AggregationError. -/
theorem merge_calc_error_unwrapped (df c m : DFrame) (e : PyErr)
    (h : merge_and_calculate df c m = .error e) : e.isAggregation = false := by
  unfold merge_and_calculate at h
  rcases h1 : merge_left df c "currency" "currency" true with e1 | M1 <;> rw [h1] at h
  · rw [error_bind] at h
    obtain rfl : e1 = e := Except.error.inj h
    rcases merge_left_error h1 with rfl | rfl <;> rfl
  rw [ok_bind] at h
  rcases h2 : merge_left df m "method" "method_in_dwh" false with e2 | M2 <;> rw [h2] at h
  · rw [error_bind] at h
    obtain rfl : e2 = e := Except.error.inj h
    rcases merge_left_error h2 with rfl | rfl <;> rfl
  rw [ok_bind] at h
  rcases h3 : group_agg df "month" with e3 | g1 <;> rw [h3] at h
  · rw [error_bind] at h
    obtain rfl : e3 = e := Except.error.inj h
    obtain ⟨k, rfl⟩ := group_agg_error h3
    rfl
  rw [ok_bind] at h
  rcases h4 : group_agg M1 "country" with e4 | g2 <;> rw [h4] at h
  · rw [error_bind] at h
    obtain rfl : e4 = e := Except.error.inj h
    obtain ⟨k, rfl⟩ := group_agg_error h4
    rfl
  rw [ok_bind] at h
  rcases h5 : group_agg M2 "method_group" with e5 | g3 <;> rw [h5] at h
  · rw [error_bind] at h
    obtain rfl : e5 = e := Except.error.inj h
    obtain ⟨k, rfl⟩ := group_agg_error h5
    rfl
  rw [ok_bind, pure_except] at h
  exact absurd h (by simp)

theorem resolvesOnce_spec {lookup : DFrame} {kc vc : String} {k : Cell}
    (h : resolvesOnce lookup kc vc k = true) :
    ∃ ri vi s v, lookup.colIdx kc = some ri ∧ lookup.colIdx vc = some vi ∧
      lookup.rows.filter (fun s' => decide (getCell s' ri = k)) = [s] ∧
      getCell s vi = some v := by
  unfold resolvesOnce at h
  rcases h1 : lookup.colIdx kc with _ | ri <;> rw [h1] at h
  · exact absurd h (by simp)
  rcases h2 : lookup.colIdx vc with _ | vi <;> rw [h2] at h
  · exact absurd h (by simp)
  dsimp only at h
  rcases h3 : lookup.rows.filter (fun s' => decide (getCell s' ri = k)) with _ | ⟨s, rest⟩
  · rw [h3] at h; exact absurd h (by simp)
  rcases rest with _ | ⟨s2, rest2⟩
  · rw [h3] at h
    dsimp only at h
    rcases hv : getCell s vi with _ | v
    · rw [hv] at h; exact absurd h (by simp)
    · exact ⟨ri, vi, s, v, rfl, rfl, h3, hv⟩
  · rw [h3] at h; exact absurd h (by simp)

theorem colIdxA_eraseIdx {cols : List Col} {nm : String} {ri vi : Nat} {cr : Col}
    (hv : colIdxA cols nm = some vi)
    (hr : cols[ri]? = some cr) (hcr : ¬ cr.name = nm) :
    colIdxA (cols.eraseIdx ri) nm = some (if vi < ri then vi else vi - 1) := by
  induction cols generalizing ri vi with
  | nil => simp [colIdxA] at hv
  | cons c cs ih =>
    cases ri with
    | zero =>
      have hc : c = cr := by
        have := hr
        simp only [List.getElem?_cons_zero, Option.some.injEq] at this
        exact this
      subst hc
      simp only [colIdxA, hcr, if_false, Option.map_eq_some'] at hv
      obtain ⟨j, hj, rfl⟩ := hv
      simp [List.eraseIdx, hj]
    | succ ms =>
      have hrm : cs[ms]? = some cr := by simpa using hr
      by_cases hc : c.name = nm
      · simp only [colIdxA, hc, if_true, Option.some.injEq] at hv
        simp [List.eraseIdx, colIdxA, hc, ← hv]
      · simp only [colIdxA, hc, if_false, Option.map_eq_some'] at hv
        obtain ⟨j, hj, rfl⟩ := hv
        have hrec := ih hj hrm
        have hjm : j ≠ ms := by
          intro hEq
          obtain ⟨col, hcol, hname⟩ := colIdxA_name hj
          rw [hEq, hrm] at hcol
          exact hcr ((Option.some.inj hcol) ▸ hname)
        simp only [List.eraseIdx_cons_succ, colIdxA, hc, if_false, hrec,
          Option.map_some, Option.some.injEq]
        have hjlt := colIdxA_lt hj
        split_ifs <;> (try simp) <;> omega

theorem getCell_align_append {n : Nat} (t X : Row) {i : Nat} (hi : i < n) :
    getCell (alignRow n t ++ X) i = getCell t i := by
  have h1 : i < (alignRow n t).length := by rw [length_alignRow]; exact hi
  rw [getCell_append_left h1, getCell_alignRow _ hi]

theorem getCell_align_append_right (n : Nat) (t X : Row) (j : Nat) :
    getCell (alignRow n t ++ X) (n + j) = getCell X j := by
  have h : n + j = (alignRow n t).length + j := by rw [length_alignRow]
  rw [h, getCell_append_right]

theorem colIdx_merged_right {l blk : List Col} {nm : String} {ki : Nat}
    (hnone : colIdxA l nm = none) (hki : colIdxA (l ++ blk) nm = some ki) :
    ∃ j, colIdxA blk nm = some j ∧ ki = l.length + j := by
  rw [colIdxA_append_right blk hnone] at hki
  obtain ⟨j, hj, hk⟩ := Option.map_eq_some'.mp hki
  exact ⟨j, hj, hk.symm⟩

theorem rightPart_cell_erase (r : DFrame) (ri vi : Nat) (s : Row)
    (hrivi : ri ≠ vi) (hri_lt : ri < r.cols.length) (hvi_lt : vi < r.cols.length) :
    getCell (rightPart r ri true s) (if vi < ri then vi else vi - 1) = getCell s vi := by
  unfold rightPart
  simp only [if_true]
  by_cases hlt : vi < ri
  · rw [if_pos hlt, getCell_eraseIdx_lt hlt, getCell_alignRow _ hvi_lt]
  · have hgt : ri < vi := by omega
    rw [if_neg hlt]
    have h1 : ri ≤ vi - 1 := by omega
    have h2 : ri < (alignRow r.cols.length s).length := by
      rw [length_alignRow]; exact hri_lt
    rw [getCell_eraseIdx_ge h2 h1]
    have h3 : vi - 1 + 1 = vi := by omega
    rw [h3, getCell_alignRow _ hvi_lt]

theorem rightPart_cell_keep (r : DFrame) (ri vi : Nat) (s : Row)
    (hvi_lt : vi < r.cols.length) :
    getCell (rightPart r ri false s) vi = getCell s vi := by
  unfold rightPart
  simp only [Bool.false_eq_true, if_false]
  exact getCell_alignRow _ hvi_lt

theorem groupPairs_total_sum (ps : List (Option Val × T3)) :
    ((groupPairs ps).map (fun p => p.2.1)).sum =
      ((ps.filter (fun p => p.1.isSome)).map (fun p => p.2.1)).sum := by
  have h1 := congrArg (fun x : T3 => x.1) (groupPairs_sum ps)
  simp only [fst_sum, List.map_map] at h1
  exact h1

theorem presentColSum_flatMap (rows : List Row) (f : Row → List (Option Val × T3))
    (val : Row → ℚ)
    (h : ∀ t ∈ rows, ((f t).filter (fun p => p.1.isSome)).map (fun p => p.2.1) = [val t]) :
    (((rows.flatMap f).filter (fun p => p.1.isSome)).map (fun p => p.2.1)).sum
      = (rows.map val).sum := by
  induction rows with
  | nil => simp
  | cons t ts ih =>
    simp only [List.flatMap_cons, List.filter_append, List.map_append, List.sum_append,
      List.map_cons, List.sum_cons]
    rw [h t (List.mem_cons_self _ _), ih (fun q hq => h q (List.mem_cons_of_mem _ hq))]
    simp

/-- A left row whose key resolves uniquely through the lookup frame
produces exactly one merged row, whose group key is the looked-up value
and whose aggregated triple is the left row's triple. -/
theorem pairs_of_resolved_row
    (l r : DFrame) (li ri vi ti ai vi3 ki : Nat) (b : Bool) (kc vc : String) (t : Row)
    (hri : r.colIdx kc = some ri)
    (hvi : r.colIdx vc = some vi)
    (hne : ¬ kc = vc)
    (hnonel : colIdxA l.cols vc = none)
    (hki : colIdxA (mergedCols l r ri b) vc = some ki)
    (hti : ti < l.cols.length) (hai : ai < l.cols.length) (hvi3 : vi3 < l.cols.length)
    (hres : resolvesOnce r kc vc (getCell t li) = true) :
    ∃ v, (expandRow l r li ri b t).map
        (fun u => (getCell u ki, rowTriple ti ai vi3 u)) =
      [(some v, rowTriple ti ai vi3 t)] := by
  obtain ⟨ri', vi', s, v, hri', hvi', hfil, hv⟩ := resolvesOnce_spec hres
  have hriq : ri' = ri := Option.some.inj (hri'.symm.trans hri)
  have hviq : vi' = vi := Option.some.inj (hvi'.symm.trans hvi)
  rw [hriq] at hfil
  rw [hviq] at hv
  have hexp : expandRow l r li ri b t =
      [alignRow l.cols.length t ++ rightPart r ri b s] := by
    unfold expandRow
    rw [hfil]
    simp
  have htrip : rowTriple ti ai vi3 (alignRow l.cols.length t ++ rightPart r ri b s) =
      rowTriple ti ai vi3 t := by
    unfold rowTriple
    rw [getCell_align_append _ _ hti, getCell_align_append _ _ hai,
      getCell_align_append _ _ hvi3]
  rw [mergedCols] at hki
  obtain ⟨j, hj, rfl⟩ := colIdx_merged_right hnonel hki
  have hkey : getCell (alignRow l.cols.length t ++ rightPart r ri b s)
      (l.cols.length + j) = some v := by
    rw [getCell_align_append_right]
    cases b with
    | true =>
      obtain ⟨cr, hcr, hcrname⟩ := colIdxA_name hri
      have hcrvc : ¬ cr.name = vc := by rw [hcrname]; exact hne
      have hj' := colIdxA_eraseIdx hvi hcr hcrvc
      have hjeq : j = if vi < ri then vi else vi - 1 := by
        simp only [if_true] at hj
        exact Option.some.inj (hj.symm.trans hj')
      subst hjeq
      have hrivi : ri ≠ vi := by
        intro hEq
        obtain ⟨cv, hcv, hcvname⟩ := colIdxA_name hvi
        rw [← hEq] at hcv
        rw [hcr] at hcv
        exact hne (by rw [← hcrname, Option.some.inj hcv, hcvname])
      rw [rightPart_cell_erase r ri vi s hrivi (colIdxA_lt hri) (colIdxA_lt hvi)]
      exact hv
    | false =>
      simp only [Bool.false_eq_true, if_false] at hj
      have hjq : j = vi := Option.some.inj (hj.symm.trans hvi)
      rw [hjq, rightPart_cell_keep r ri vi s (colIdxA_lt hvi)]
      exact hv
  refine ⟨v, ?_⟩
  rw [hexp, List.map_cons, List.map_nil, hkey, htrip]

theorem map_flatMap' {α β γ : Type} (l : List α) (f : α → List β) (g : β → γ) :
    (l.flatMap f).map g = l.flatMap (fun a => (f a).map g) := by
  induction l <;> simp [*]

/-- C2 counterexample: on a transaction row whose currency "XYZ" has no
country-lookup match, `byCountry` comes back empty, so the sum of
`total_transactions` over `byCountry` (0) differs from the sum over the
transaction table (10): the three summaries do not all preserve the
total. -/
theorem sum_preservation_counterexample :
    merge_and_calculate dfUnmatched cE mE = .ok (bmU, [], bgU) ∧
    colSum dfUnmatched "total transactions" = 10 ∧
    sumTotals ([] : List SRow) ≠ colSum dfUnmatched "total transactions" := by
  have hcs : colSum dfUnmatched "total transactions" = 10 := by
    simp [colSum, DFrame.colIdx, colIdxA, dfUnmatched, dfCols, getCell, cellNum]
  refine ⟨merge_calc_dfUnmatched_eval, hcs, ?_⟩
  rw [hcs]
  simp [sumTotals]

/-- C2 (amended): the byMonth summary preserves the total-transactions
sum whenever every month cell is present; the byCountry summary
preserves it whenever every row's currency matches exactly one
country-lookup row whose country is present (the transaction table
carrying no `country` column of its own); the byMethodGroup summary
preserves it whenever every row's method matches exactly one
method-lookup row whose method_group is present (no own `method_group`
column) — each summary under its own condition only.  Otherwise the
equality can fail: unmatched rows are dropped by the grouping and
duplicate lookup matches count a row once per match. -/
theorem merge_total_preservation (df c m : DFrame) (bm bc bg : List SRow)
    (h : merge_and_calculate df c m = .ok (bm, bc, bg)) :
    (colAllPresent df "month" = true →
      sumTotals bm = colSum df "total transactions") ∧
    ("country" ∉ df.colNames →
      allResolveOnce df "currency" c "currency" "country" = true →
      sumTotals bc = colSum df "total transactions") ∧
    ("method_group" ∉ df.colNames →
      allResolveOnce df "method" m "method_in_dwh" "method_group" = true →
      sumTotals bg = colSum df "total transactions") := by
  obtain ⟨M1, M2, g1, g2, g3, h1, h2, h3, h4, h5, rfl, rfl, rfl⟩ := merge_calc_ok h
  obtain ⟨li, ri, hli, hri, rfl⟩ := merge_left_ok h1
  obtain ⟨li2, ri2, hli2, hri2, rfl⟩ := merge_left_ok h2
  obtain ⟨mi, ti, ai, vi, hmi, hti, hai, hvi, rfl⟩ := group_agg_ok h3
  obtain ⟨ki1, tiM, aiM, viM, hki1, htiM, haiM, hviM, rfl⟩ := group_agg_ok h4
  obtain ⟨ki2, tiM2, aiM2, viM2, hki2, htiM2, haiM2, hviM2, rfl⟩ := group_agg_ok h5
  have htiM' : tiM = ti :=
    (Option.some.inj ((colIdxA_append_left (c.cols.eraseIdx ri) hti).symm.trans htiM)).symm
  have haiM' : aiM = ai :=
    (Option.some.inj ((colIdxA_append_left (c.cols.eraseIdx ri) hai).symm.trans haiM)).symm
  have hviM' : viM = vi :=
    (Option.some.inj ((colIdxA_append_left (c.cols.eraseIdx ri) hvi).symm.trans hviM)).symm
  have htiM2' : tiM2 = ti :=
    (Option.some.inj ((colIdxA_append_left m.cols hti).symm.trans htiM2)).symm
  have haiM2' : aiM2 = ai :=
    (Option.some.inj ((colIdxA_append_left m.cols hai).symm.trans haiM2)).symm
  have hviM2' : viM2 = vi :=
    (Option.some.inj ((colIdxA_append_left m.cols hvi).symm.trans hviM2)).symm
  rw [htiM', haiM', hviM', htiM2', haiM2', hviM2']
  have hcolSum : colSum df "total transactions" =
      (df.rows.map (fun r => cellNum (getCell r ti))).sum := by
    unfold colSum
    rw [hti]
  have htib := colIdxA_lt hti
  have haib := colIdxA_lt hai
  have hvib := colIdxA_lt hvi
  refine ⟨?_, ?_, ?_⟩
  · -- byMonth
    intro hmon
    rw [sumTotals_addRate, groupPairs_total_sum, hcolSum]
    have hfull : (df.rows.map (fun r => (getCell r mi, rowTriple ti ai vi r))).filter
        (fun p => p.1.isSome) =
        df.rows.map (fun r => (getCell r mi, rowTriple ti ai vi r)) := by
      rw [List.filter_eq_self]
      rintro p hp
      obtain ⟨r, hr, rfl⟩ := List.mem_map.mp hp
      simp only [colAllPresent, hmi, List.all_eq_true] at hmon
      simpa using hmon r hr
    rw [hfull, List.map_map]
    rfl
  · -- byCountry
    intro hnc hcur
    have hnone1 : colIdxA df.cols "country" = none :=
      (colIdxA_none_iff _ _).mpr
        (fun col hcol heq => hnc (List.mem_map.mpr ⟨col, hcol, heq⟩))
    show sumTotals (addRate (groupPairs
      ((df.rows.flatMap (expandRow df c li ri true)).map
        (fun u => (getCell u ki1, rowTriple ti ai vi u))))) = _
    rw [sumTotals_addRate, groupPairs_total_sum, hcolSum, map_flatMap']
    apply presentColSum_flatMap
    intro t ht
    have hres : resolvesOnce c "currency" "country" (getCell t li) = true := by
      simp only [allResolveOnce, hli, List.all_eq_true] at hcur
      exact hcur t ht
    obtain ⟨ri', cvi, s, v, hri', hcvi, _, _⟩ := resolvesOnce_spec hres
    obtain ⟨v', hpair⟩ := pairs_of_resolved_row df c li ri cvi ti ai vi ki1 true
      "currency" "country" t hri hcvi (by simp) hnone1 hki1 htib haib hvib hres
    rw [hpair]
    simp [rowTriple]
  · -- byMethodGroup
    intro hng hmet
    have hnone2 : colIdxA df.cols "method_group" = none :=
      (colIdxA_none_iff _ _).mpr
        (fun col hcol heq => hng (List.mem_map.mpr ⟨col, hcol, heq⟩))
    show sumTotals (addRate (groupPairs
      ((df.rows.flatMap (expandRow df m li2 ri2 false)).map
        (fun u => (getCell u ki2, rowTriple ti ai vi u))))) = _
    rw [sumTotals_addRate, groupPairs_total_sum, hcolSum, map_flatMap']
    apply presentColSum_flatMap
    intro t ht
    have hres : resolvesOnce m "method_in_dwh" "method_group" (getCell t li2) = true := by
      simp only [allResolveOnce, hli2, List.all_eq_true] at hmet
      exact hmet t ht
    obtain ⟨ri', mvi, s, v, hri', hmvi, _, _⟩ := resolvesOnce_spec hres
    obtain ⟨v', hpair⟩ := pairs_of_resolved_row df m li2 ri2 mvi ti ai vi ki2 false
      "method_in_dwh" "method_group" t hri2 hmvi (by simp) hnone2 hki2 htib haib hvib hres
    rw [hpair]
    simp [rowTriple]

/-- C2 (amended) witness: on the end-to-end example every month is
present and both lookups resolve uniquely, so all three summary sums
equal the table sum. -/
theorem merge_total_preservation_witness :
    merge_and_calculate dfE cE mE = .ok (bmE, bcE, bgE) ∧
    colAllPresent dfE "month" = true ∧
    "country" ∉ dfE.colNames ∧ "method_group" ∉ dfE.colNames ∧
    allResolveOnce dfE "currency" cE "currency" "country" = true ∧
    allResolveOnce dfE "method" mE "method_in_dwh" "method_group" = true ∧
    sumTotals bmE = colSum dfE "total transactions" ∧
    sumTotals bcE = colSum dfE "total transactions" ∧
    sumTotals bgE = colSum dfE "total transactions" :=
  ⟨merge_calc_dfE_eval, by decide, by decide, by decide, by decide, by decide,
   (merge_total_preservation dfE cE mE bmE bcE bgE merge_calc_dfE_eval).1 (by decide),
   (merge_total_preservation dfE cE mE bmE bcE bgE merge_calc_dfE_eval).2.1
     (by decide) (by decide),
   (merge_total_preservation dfE cE mE bmE bcE bgE merge_calc_dfE_eval).2.2
     (by decide) (by decide)⟩

/-- C7 (amended) witness: the unwrapped-error contract evaluated at a
concrete failing input. -/
theorem merge_calc_error_unwrapped_witness :
    merge_and_calculate dfNoVolume cE mE = .error (.keyError "volume_usd") ∧
    (PyErr.keyError "volume_usd").isAggregation = false :=
  ⟨by decide,
   merge_calc_error_unwrapped dfNoVolume cE mE (.keyError "volume_usd") (by decide)⟩

end PaymentAnalytics
